import Mathlib

/-!
Verification development for the Distributed-Vector-Database repository.

This file gives a shallow embedding, in Lean 4, of the parts of the source
relevant to the durability and routing properties under study:

* `src/src/utils/wal_manager.py` — segmented write-ahead log (class WALManager):
  `write_log` and the full-replay collapse logic of `replay`.
* `src/src/datanode/handler.py` — the data-node storage engine
  (class VectorNodeHandler): HNSW index with soft deletion, the embedded KV
  store, tombstones, `put`, `delete`, `get`, `search`, `_rebuild_hnsw_index`.
* `src/src/utils/shared_utils.py` — `assign_shards_to_nodes`.
* `src/src/coordinator/handler.py` — the broadcast-search merge of
  `CoordinatorHandler.search`.

Modelling conventions:
* float32 vector components and distances are modelled exactly over `ℚ`;
  no floating-point rounding is modelled (none of the proved properties
  depends on rounding).
* On-disk JSON lines are modelled as `Option WalEntry`: `none` stands for a
  blank line or a line that `json.loads` rejects.
* File sizes are abstracted to entry counts: `max_log_size` (10 MiB in the
  source) becomes a threshold on the number of entries in a segment.
* Calls into the external hnswlib library may raise `RuntimeError`.  For
  `add_items` inside `put` the failure of each of the (at most two) attempts
  is an input of the model (an explicit oracle), since the library's failure
  conditions are environmental; for `knn_query` the failure is deterministic:
  hnswlib raises when the requested `k` exceeds the number of stored elements.
* Python's `sorted` and `dict` are modelled by a stable insertion sort and an
  insertion-ordered association list, matching CPython semantics.
-/

namespace VDB

/-- Stable insertion of `x` into `l`, placing `x` before the first element
whose key is not smaller.  Building block of the stable sort below. -/
def stableInsert {α β : Type} [LinearOrder β] (key : α → β) (x : α) : List α → List α
  | [] => [x]
  | y :: ys => if key y < key x then y :: stableInsert key x ys else x :: y :: ys

/-- Stable sort by a key, modelling Python's stable `sorted(..., key=...)`. -/
def sortByKey {α β : Type} [LinearOrder β] (key : α → β) : List α → List α
  | [] => []
  | x :: xs => stableInsert key x (sortByKey key xs)

theorem stableInsert_perm {α β : Type} [LinearOrder β] (key : α → β) (x : α) (l : List α) :
    List.Perm (stableInsert key x l) (x :: l) := by
  induction l with
  | nil => simp [stableInsert]
  | cons y ys ih =>
    simp only [stableInsert]
    split
    · exact (ih.cons y).trans (List.Perm.swap x y ys)
    · exact List.Perm.refl _

theorem sortByKey_perm {α β : Type} [LinearOrder β] (key : α → β) (l : List α) :
    List.Perm (sortByKey key l) l := by
  induction l with
  | nil => exact List.Perm.refl _
  | cons x xs ih => exact (stableInsert_perm key x (sortByKey key xs)).trans (ih.cons x)

theorem mem_sortByKey {α β : Type} [LinearOrder β] (key : α → β) (x : α) (l : List α) :
    x ∈ sortByKey key l ↔ x ∈ l :=
  (sortByKey_perm key l).mem_iff

theorem stableInsert_map {α α' β : Type} [LinearOrder β] (key : α → β) (key' : α' → β)
    (g : α → α') (hg : ∀ x, key' (g x) = key x) (x : α) (l : List α) :
    stableInsert key' (g x) (l.map g) = (stableInsert key x l).map g := by
  induction l with
  | nil => simp [stableInsert]
  | cons y ys ih =>
    simp only [List.map_cons, stableInsert, hg]
    split <;> simp [ih]

theorem sortByKey_map {α α' β : Type} [LinearOrder β] (key : α → β) (key' : α' → β)
    (g : α → α') (hg : ∀ x, key' (g x) = key x) (l : List α) :
    sortByKey key' (l.map g) = (sortByKey key l).map g := by
  induction l with
  | nil => simp [sortByKey]
  | cons x xs ih => simp only [List.map_cons, sortByKey, ih, stableInsert_map key key' g hg]

/-- The `op_type` field of a WAL entry (`"PUT"` or `"DELETE"`). -/
inductive OpType where
  | put
  | del
deriving DecidableEq, Repr

/-- One WAL record, serialized in the source as a single JSON object per line:
`op_type, key, vector, metadata, timestamp, node_id`
(`wal_manager.py`, `write_log`, lines 90–98). -/
structure WalEntry where
  op_type : OpType
  key : String
  vector : Option (List ℚ)
  metadata : Option (List (String × String))
  timestamp : ℕ
  node_id : String
deriving DecidableEq, Repr

/-- A WAL segment file `wal_<ts>.log`: its creation timestamp (from the file
name) and its lines.  A `none` line is a blank line or one that `json.loads`
rejects; `replay` skips such lines. -/
structure WalSegment where
  ts : ℕ
  lines : List (Option WalEntry)
deriving DecidableEq, Repr

/-- State of a `WALManager`: the segment files of the `wal/data` directory,
the name (timestamp) of the active file, the rotation threshold and the GC
age, and the owning node id.  Segment sizes are abstracted to entry counts. -/
structure WALState where
  files : List WalSegment
  current_log_file : ℕ
  max_log_size : ℕ
  max_log_age : ℕ
  node_id : String
deriving DecidableEq, Repr

namespace WALManager

/-- Size (entry count) of the file named `ts`, 0 when absent. -/
def fileSize (files : List WalSegment) (ts : ℕ) : ℕ :=
  ((files.find? (fun s => s.ts == ts)).map (fun s => s.lines.length)).getD 0

/-- `os.rename(temp, target)`: replace the content of the file named `ts`
when it exists, otherwise create it. -/
def renameOver (files : List WalSegment) (ts : ℕ) (lines : List (Option WalEntry)) :
    List WalSegment :=
  if files.any (fun s => s.ts == ts) then
    files.map (fun s => if s.ts == ts then ⟨ts, lines⟩ else s)
  else files ++ [⟨ts, lines⟩]

/-- `WALManager._get_current_log_file` (lines 31–50): pick the last segment in
sorted name order when it is below the size threshold, otherwise (or when the
directory is empty) a fresh name from the current time.  Sorting by the
numeric timestamp models the source's lexicographic sort of the fixed-width
`wal_<ms>.log` names. -/
def get_current_log_file (files : List WalSegment) (max_log_size now : ℕ) : ℕ :=
  match (sortByKey (fun s => s.ts) files).getLast? with
  | none => now
  | some last => if last.lines.length < max_log_size then last.ts else now

/-- `WALManager._clean_expired_logs` (lines 67–77): drop segments whose
file-name timestamp (in seconds) is older than `max_log_age`. -/
def clean_expired_logs (files : List WalSegment) (max_log_age nowSec : ℕ) : List WalSegment :=
  files.filter (fun s => nowSec ≤ s.ts / 1000 + max_log_age)

/-- `WALManager.write_log` (lines 80–113).  The source builds the entry, opens
`<current>.tmp` in append mode — a fresh file, holding only the new entry —
writes the one line, and renames the temp file onto the active segment; it
then rotates when the active file reached `max_log_size`, and runs the age GC
when `log_ts % 100 == 0`.  `now` stands for `time.time() * 1000`. -/
def write_log (w : WALState) (op_type : OpType) (key : String)
    (vector : Option (List ℚ)) (metadata : Option (List (String × String)))
    (timestamp : Option ℕ) (now : ℕ) : WALState :=
  let log_ts := timestamp.getD now
  let e : WalEntry :=
    { op_type := op_type, key := key, vector := vector, metadata := metadata
      timestamp := log_ts, node_id := w.node_id }
  let files := renameOver w.files w.current_log_file [some e]
  let w := { w with files := files }
  let w :=
    if w.max_log_size ≤ fileSize files w.current_log_file then
      { w with current_log_file := get_current_log_file files w.max_log_size now }
    else w
  if log_ts % 100 == 0 then
    { w with files := clean_expired_logs w.files w.max_log_age (now / 1000) }
  else w

/-- WAL manager over a fresh (empty) directory, as built by `__init__`. -/
def walInit (node_id : String) (now : ℕ) : WALState :=
  { files := [], current_log_file := now, max_log_size := 1000000
    max_log_age := 7 * 24 * 3600, node_id := node_id }

/-- The parseable entries of all segments, in segment-name order then line
order — exactly what the loop of `WALManager.replay` (lines 124–155) reads,
with corrupt (`none`) lines skipped. -/
def segmentEntries (files : List WalSegment) : List WalEntry :=
  (((sortByKey (fun s => s.ts) files).map (fun s => s.lines)).flatten).filterMap id

/-- One step of the `unique_ops[key] = log_entry` dict update of `replay`
(line 149): replace the first entry with the same key in place, else append.
A Python dict keeps a key's original position when its value is updated. -/
def upsertOp : List WalEntry → WalEntry → List WalEntry
  | [], e => [e]
  | x :: xs, e => if x.key == e.key then e :: xs else x :: upsertOp xs e

/-- The collapse of `replay` step 2: fold all read entries into `unique_ops`. -/
def collapseOps (entries : List WalEntry) : List WalEntry :=
  entries.foldl upsertOp []

/-- The surviving operations of a full `WALManager.replay` over the given
segment files: read in sorted order, skip corrupt lines, collapse by key. -/
def replayOps (files : List WalSegment) : List WalEntry :=
  collapseOps (segmentEntries files)

/-- Modelled from the spec: the collapse rule as the spec words it —
for each key keep the latest entry, "latest" decided by entry timestamp
first and file order second.  Stated for one key: the surviving entry for
`k` under the spec's rule.  Used only to compare against the source's
`replayOps`. -/
def specLatestFor (entries : List WalEntry) (k : String) : Option WalEntry :=
  (entries.filter (fun e => e.key == k)).foldl
    (fun acc e =>
      match acc with
      | none => some e
      | some a => if a.timestamp ≤ e.timestamp then some e else some a)
    none

/-- Drop the corrupt (unparseable) lines of every segment. -/
def stripCorrupt (files : List WalSegment) : List WalSegment :=
  files.map (fun s => ⟨s.ts, s.lines.filter (fun o => o.isSome)⟩)

end WALManager

/-- A LevelDB value blob (`vec_dict` in `handler.py`):
`hnsw_id, vector, metadata`. -/
structure VecEntry where
  hnsw_id : ℕ
  vector : List ℚ
  metadata : List (String × String)
deriving DecidableEq, Repr

/-- The hnswlib index: the physically stored `(label, vector)` pairs (soft
deleted labels stay until a rebuild), the capacity `max_elements`, and the
query-time `ef`. -/
structure HnswIndex where
  elems : List (ℕ × List ℚ)
  max_elements : ℕ
  ef : ℕ
deriving DecidableEq, Repr

/-- In-memory state of a `VectorNodeHandler` (`handler.py`, `__init__`):
configured dimension, HNSW index, LevelDB contents (an insertion-ordered
association list; LevelDB itself iterates in key order, which coincides for
lookups here because a stored `hnsw_id` identifies at most one live key),
the soft-deleted id set, the id counter, and the WAL manager.
`assignedIds` is a ghost history of every `hnsw_id` assigned to a record. -/
structure NodeState where
  vector_dim : ℕ
  hnsw_index : HnswIndex
  kv : List (String × VecEntry)
  deleted_ids : Finset ℕ
  next_hnsw_id : ℕ
  wal : WALState
  assignedIds : List ℕ
deriving DecidableEq

namespace VectorNodeHandler

/-- `self.leveldb.get(key)`. -/
def kvGet (kv : List (String × VecEntry)) (key : String) : Option VecEntry :=
  (kv.find? (fun p => p.1 == key)).map (fun p => p.2)

/-- `self.leveldb.delete(key)`. -/
def kvDelete (kv : List (String × VecEntry)) (key : String) : List (String × VecEntry) :=
  kv.filter (fun p => !(p.1 == key))

/-- `self.leveldb.put(key, blob)`: overwrite the entry for `key`. -/
def kvPut (kv : List (String × VecEntry)) (key : String) (e : VecEntry) :
    List (String × VecEntry) :=
  kvDelete kv key ++ [(key, e)]

/-- `VectorNodeHandler._get_hnsw_id_by_key` (lines 136–143); `none` models the
sentinel -1. -/
def _get_hnsw_id_by_key (kv : List (String × VecEntry)) (key : String) : Option ℕ :=
  (kvGet kv key).map (fun e => e.hnsw_id)

/-- `VectorNodeHandler._get_key_by_hnsw_id` (lines 145–153): scan the KV for
the first entry bound to the id; `none` models the empty-string sentinel. -/
def _get_key_by_hnsw_id (kv : List (String × VecEntry)) (i : ℕ) : Option String :=
  (kv.find? (fun p => p.2.hnsw_id == i)).map (fun p => p.1)

/-- `hnswlib.Index.add_items` with a single `(label, vector)` pair. -/
def hnswAdd (idx : HnswIndex) (i : ℕ) (v : List ℚ) : HnswIndex :=
  { idx with elems := idx.elems ++ [(i, v)] }

/-- `VectorNodeHandler._rebuild_hnsw_index` (lines 91–120): re-insert, with
their existing ids, all non-tombstoned ids in `range(next_hnsw_id)` that are
still bound to a KV entry; capacity becomes `live + 10000`; clear the
tombstone set.  `next_hnsw_id` is not modified. -/
def _rebuild_hnsw_index (st : NodeState) : NodeState :=
  let valid : List (ℕ × List ℚ) :=
    (List.range st.next_hnsw_id).filterMap (fun i =>
      if i ∈ st.deleted_ids then none
      else
        match _get_key_by_hnsw_id st.kv i with
        | none => none
        | some key =>
          match kvGet st.kv key with
          | none => none
          | some e => some (i, e.vector))
  { st with
    hnsw_index := { elems := valid, max_elements := valid.length + 10000, ef := 64 }
    deleted_ids := ∅ }

/-- Outcome of `put`: success, the dimension-mismatch failure `Response`
(line 229), or the `RuntimeError` propagating out of the post-rebuild retry
(line 279). -/
inductive PutOutcome where
  | ok
  | invalidDim
  | indexErr
deriving DecidableEq, Repr

/-- `put` step 1 (lines 236–251): health-check the index and rebuild when
`count ≥ max_elements`. -/
def healthCheck (st : NodeState) : NodeState :=
  if st.hnsw_index.max_elements ≤ st.hnsw_index.elems.length then _rebuild_hnsw_index st
  else st

/-- `put` step 3 (lines 253–261): when the key is already bound, tombstone its
old id and delete its KV entry. -/
def overwriteOld (st : NodeState) (key : String) : NodeState :=
  match _get_hnsw_id_by_key st.kv key with
  | none => st
  | some old =>
    { st with deleted_ids := insert old st.deleted_ids, kv := kvDelete st.kv key }

/-- `put` steps 6–9 (lines 284–317) after a successful `add_items`: advance
`next_hnsw_id`, write the KV blob, and outside replay mode append to the WAL
and run the periodic rebuild (the index image, tombstone file and checkpoint
writes touch only the disk artifacts, which this state does not carry). -/
def finishPut (st : NodeState) (key : String) (vector : List ℚ)
    (metadata : List (String × String)) (new_hnsw_id : ℕ) (replay_mode : Bool)
    (now : ℕ) : NodeState × PutOutcome :=
  let st := { st with hnsw_index := hnswAdd st.hnsw_index new_hnsw_id vector }
  let st := { st with
    next_hnsw_id := st.next_hnsw_id + 1
    assignedIds := st.assignedIds ++ [new_hnsw_id] }
  let st := { st with kv := kvPut st.kv key ⟨new_hnsw_id, vector, metadata⟩ }
  if replay_mode then (st, .ok)
  else
    let st :=
      { st with wal := WALManager.write_log st.wal .put key (some vector) (some metadata) none now }
    let st := if st.next_hnsw_id % 200000 == 0 then _rebuild_hnsw_index st else st
    (st, .ok)

/-- `VectorNodeHandler.put` (lines 222–320).  `addFail1`/`addFail2` are the
oracle for whether the first `add_items` call and the post-rebuild retry
raise `RuntimeError`; a failed call leaves the index unchanged.  On the
dimension mismatch the handler returns a failure `Response` before touching
any state; when the retry also fails the `RuntimeError` propagates (no
further state change, no KV write, no WAL append). -/
def put (st : NodeState) (key : String) (vector : List ℚ)
    (metadata : List (String × String)) (replay_mode : Bool)
    (addFail1 addFail2 : Bool) (now : ℕ) : NodeState × PutOutcome :=
  if vector.length ≠ st.vector_dim then (st, .invalidDim)
  else
    let st := healthCheck st
    let st := overwriteOld st key
    let new_hnsw_id := st.next_hnsw_id
    if addFail1 then
      let st := _rebuild_hnsw_index st
      let new_hnsw_id := st.next_hnsw_id
      if addFail2 then (st, .indexErr)
      else finishPut st key vector metadata new_hnsw_id replay_mode now
    else finishPut st key vector metadata new_hnsw_id replay_mode now

/-- `VectorNodeHandler.delete` (lines 323–342).  Returns `false` (the
key-not-found failure `Response`) when the key is unbound. -/
def delete (st : NodeState) (key : String) (replay_mode : Bool) (now : ℕ) :
    NodeState × Bool :=
  match _get_hnsw_id_by_key st.kv key with
  | none => (st, false)
  | some i =>
    let st := { st with deleted_ids := insert i st.deleted_ids, kv := kvDelete st.kv key }
    if replay_mode then (st, true)
    else ({ st with wal := WALManager.write_log st.wal .del key none none none now }, true)

/-- `VectorNodeHandler.get` (lines 411–428): `none` models the NotFound
failure `Response`, returned when the KV entry is missing or its id is
tombstoned. -/
def get (st : NodeState) (key : String) : Option VecEntry :=
  match kvGet st.kv key with
  | none => none
  | some e => if e.hnsw_id ∈ st.deleted_ids then none else some e

/-- Squared L2 distance, the `l2` space of hnswlib. -/
def sqDist (a b : List ℚ) : ℚ :=
  ((a.zip b).map (fun p => (p.1 - p.2) ^ 2)).sum

/-- `hnswlib.Index.knn_query`: the `k` stored elements nearest to `q` in
ascending distance order, or `none` — hnswlib raises `RuntimeError` — when
`k` exceeds the number of stored elements.  (The other library failure mode,
`ef < k`, cannot occur at the `search` call site, which sets
`ef = max(50, 2*k) ≥ k`.) -/
def knn_query (idx : HnswIndex) (q : List ℚ) (k : ℕ) : Option (List (ℕ × ℚ)) :=
  if idx.elems.length < k then none
  else some
    (((sortByKey (fun p => sqDist q p.2) idx.elems).take k).map (fun p => (p.1, sqDist q p.2)))

/-- One search result row: the returned key/vector/metadata and score, plus
the `hnsw_id` of the KV record it came from. -/
structure SearchHit where
  key : String
  vector : List ℚ
  metadata : List (String × String)
  score : ℚ
  hnsw_id : ℕ
deriving DecidableEq, Repr

/-- The candidate-filtering loop of `search` (lines 375–403): skip tombstoned
ids, reverse-map to a key, fetch the KV blob, collect until `top_k` hits. -/
def searchLoop (st : NodeState) (top_k : ℕ) :
    List (ℕ × ℚ) → List SearchHit → List SearchHit
  | [], acc => acc
  | (i, score) :: rest, acc =>
    if i ∈ st.deleted_ids then searchLoop st top_k rest acc
    else
      match _get_key_by_hnsw_id st.kv i with
      | none => searchLoop st top_k rest acc
      | some key =>
        match kvGet st.kv key with
        | none => searchLoop st top_k rest acc
        | some e =>
          let acc := acc ++ [⟨key, e.vector, e.metadata, score, e.hnsw_id⟩]
          if top_k ≤ acc.length then acc else searchLoop st top_k rest acc

/-- Outcome of `search`: a successful result list, or the failure `Response`
issued when `knn_query` raises (line 369). -/
inductive SearchOutcome where
  | ok (hits : List SearchHit)
  | indexFailure
deriving DecidableEq, Repr

/-- `VectorNodeHandler.search` (lines 344–408): default `top_k` to 5 when the
request's value is not positive, return empty on an empty index, clamp
`k = min(top_k, count)`, and query `k * 2` candidates.  (The `set_ef` call
mutates only the query-time `ef`, which no modelled observation reads; the
`threshold` request field is read but its use is commented out.) -/
def search (st : NodeState) (query_vector : List ℚ) (top_k : ℤ) : SearchOutcome :=
  let tk : ℕ := if 0 < top_k then top_k.toNat else 5
  let current_count := st.hnsw_index.elems.length
  if current_count = 0 then .ok []
  else
    let k := min tk current_count
    match knn_query st.hnsw_index query_vector (k * 2) with
    | none => .indexFailure
    | some cands => .ok (searchLoop st tk cands [])

/-- The hit list of a `search`, empty on the failure outcome. -/
def searchHits (st : NodeState) (query_vector : List ℚ) (top_k : ℤ) : List SearchHit :=
  match search st query_vector top_k with
  | .ok hits => hits
  | .indexFailure => []

end VectorNodeHandler

/-- A client-visible operation against one data node, with the `put` failure
oracle made explicit. -/
inductive NodeOp where
  | putOp (key : String) (vector : List ℚ) (metadata : List (String × String))
      (replay_mode addFail1 addFail2 : Bool) (now : ℕ)
  | deleteOp (key : String) (replay_mode : Bool) (now : ℕ)

/-- Apply one operation, keeping the state and dropping the RPC response. -/
def applyOp (st : NodeState) : NodeOp → NodeState
  | .putOp key v m r f1 f2 t => (VectorNodeHandler.put st key v m r f1 f2 t).1
  | .deleteOp key r t => (VectorNodeHandler.delete st key r t).1

/-- A freshly initialised node (`__init__` with no files on disk): empty index
of capacity 1000000, empty KV, no tombstones, `next_hnsw_id = 0`. -/
def initState (dim : ℕ) (node_id : String) (now : ℕ) : NodeState :=
  { vector_dim := dim
    hnsw_index := { elems := [], max_elements := 1000000, ef := 64 }
    kv := []
    deleted_ids := ∅
    next_hnsw_id := 0
    wal := WALManager.walInit node_id now
    assignedIds := [] }

/-- Run a sequence of operations from the initial state. -/
def runOps (dim : ℕ) (ops : List NodeOp) : NodeState :=
  ops.foldl applyOp (initState dim "n1" 0)

/-- Apply one surviving WAL entry in replay mode, as `WALManager.replay`
step 3 does (lines 157–177): `handler.put(data, replay_mode=True)` or
`handler.delete(key, replay_mode=True)`; a missing vector or metadata field
arrives as `None` and is defaulted inside `put`. -/
def applyWalEntry (st : NodeState) (e : WalEntry) : NodeState :=
  match e.op_type with
  | .put =>
    (VectorNodeHandler.put st e.key (e.vector.getD []) (e.metadata.getD [])
      true false false e.timestamp).1
  | .del => (VectorNodeHandler.delete st e.key true e.timestamp).1

/-- Full WAL replay applied to a handler: each surviving operation is applied
exactly once, in `unique_ops` iteration order. -/
def walReplay (st : NodeState) (files : List WalSegment) : NodeState :=
  (WALManager.replayOps files).foldl applyWalEntry st

/-- `assign_shards_to_nodes` of `src/src/utils/shared_utils.py` (lines 9–21):
round-robin placement; for each shard, the master is `nodes[s % N]` and the
slaves are `nodes[(s+i) % N]` for `i` in `1..replica_count`. -/
def assign_shards_to_nodes (nodes : List String) (shard_count : ℕ)
    (replica_count : ℕ) : List (ℕ × String × List String) :=
  if nodes.isEmpty then []
  else
    (List.range shard_count).map (fun shard_id =>
      (shard_id,
       nodes.getD (shard_id % nodes.length) "",
       (List.range replica_count).map (fun i =>
         nodes.getD ((shard_id + (i + 1)) % nodes.length) "")))

/-- One `(key, score, vector)` triple of a sub-result returned by a data node
to the coordinator's broadcast search. -/
structure SubResult where
  key : String
  score : ℚ
  vector : List ℚ
deriving DecidableEq, Repr

namespace CoordinatorHandler

/-- One step of the result-collection loop of `CoordinatorHandler.search`
(lines 200–206): drop the triple when its key was already seen. -/
def collectSub (acc : List SubResult) (h : SubResult) : List SubResult :=
  if acc.any (fun x => x.key == h.key) then acc else acc ++ [h]

/-- Collect the successful sub-results of all nodes in iteration order,
deduplicating by key (first occurrence wins). -/
def mergeCollect (subResults : List (List SubResult)) : List SubResult :=
  subResults.flatten.foldl collectSub []

/-- `CoordinatorHandler.search` merge (lines 191–216): collect with
key-dedup, sort ascending by score (Python's `sorted` is stable), take the
global `top_k`.  The input lists are the sub-results of the nodes whose RPC
succeeded, in node iteration order. -/
def coordinatorSearch (subResults : List (List SubResult)) (top_k : ℕ) : List SubResult :=
  (sortByKey (fun h => h.score) (mergeCollect subResults)).take top_k

end CoordinatorHandler

namespace VectorNodeHandler

/-- Invariant maintained by the handler on reachable states: KV keys and
bound ids are unique, every bound id is fresh relative to `next_hnsw_id` and
not tombstoned, tombstoned ids are below the counter, and every id ever
assigned is below the counter. -/
structure Inv (st : NodeState) : Prop where
  nodupKeys : (st.kv.map Prod.fst).Nodup
  nodupIds : (st.kv.map (fun p => p.2.hnsw_id)).Nodup
  kvLt : ∀ p ∈ st.kv, p.2.hnsw_id < st.next_hnsw_id
  kvNotDel : ∀ p ∈ st.kv, p.2.hnsw_id ∉ st.deleted_ids
  delLt : ∀ i ∈ st.deleted_ids, i < st.next_hnsw_id
  assignedLt : ∀ i ∈ st.assignedIds, i < st.next_hnsw_id

end VectorNodeHandler

/-! ### Concrete inputs evaluated in the theorems -/

/-- One PUT on a fresh dimension-4 node: a single live record. -/
def c5st : NodeState := runOps 4 [.putOp "a" [1, 0, 0, 0] [] false false false 1]

/-- Two PUTs of the same key: leaves `next_hnsw_id = 2` with one live record,
so the post-rebuild count (1) differs from `next_hnsw_id`. -/
def c4prep : List NodeOp :=
  [.putOp "a" [1] [] false false false 1, .putOp "a" [1] [] false false false 2]

/-- Two PUTs of the same key on a fresh dimension-1 node. -/
def c3ops : List NodeOp :=
  [.putOp "a" [1] [] false false false 1, .putOp "a" [1] [] false false false 2]

/-- One segment holding two entries for key "a": first with timestamp 10,
then — later in file order — with timestamp 5, plus a corrupt line. -/
def c2ex : List WalSegment :=
  [⟨1000, [some ⟨.put, "a", some [1], some [], 10, "n"⟩, none,
           some ⟨.put, "a", some [2], some [], 5, "n"⟩]⟩]

/-- PUT a, PUT b, DELETE a: one live record ("b", id 1) and one tombstone
(id 0). -/
def c7st : NodeState := runOps 1
  [.putOp "a" [1] [] false false false 1, .putOp "b" [2] [] false false false 2,
   .deleteOp "a" false 3]

/-- Two nodes returning the same key: the first with score 5, the second with
the strictly better score 1. -/
def c9subs : List (List SubResult) := [[⟨"a", 5, []⟩], [⟨"a", 1, []⟩]]

/-! ### Generic list lemmas used below -/

theorem find?_append_left {α : Type} (p : α → Bool) (l₁ l₂ : List α) (a : α)
    (h : l₁.find? p = some a) : (l₁ ++ l₂).find? p = some a := by
  induction l₁ with
  | nil => simp [List.find?] at h
  | cons x xs ih =>
    rw [List.cons_append]
    by_cases hx : p x
    · rw [List.find?_cons_of_pos _ hx] at h ⊢
      exact h
    · rw [List.find?_cons_of_neg _ hx] at h ⊢
      exact ih h

theorem find?_append_right {α : Type} (p : α → Bool) (l₁ l₂ : List α)
    (h : l₁.find? p = none) : (l₁ ++ l₂).find? p = l₂.find? p := by
  induction l₁ with
  | nil => simp
  | cons x xs ih =>
    rw [List.cons_append]
    by_cases hx : p x
    · rw [List.find?_cons_of_pos _ hx] at h
      exact absurd h (by simp)
    · rw [List.find?_cons_of_neg _ hx] at h ⊢
      exact ih h

theorem filter_isSome_filterMap {α : Type} (l : List (Option α)) :
    ((l.filter (fun o => o.isSome)).filterMap id) = l.filterMap id := by
  induction l with
  | nil => rfl
  | cons x xs ih => cases x <;> simp [List.filter, ih]

namespace VectorNodeHandler

theorem kvGet_kvDelete_self (kv : List (String × VecEntry)) (key : String) :
    kvGet (kvDelete kv key) key = none := by
  have h : (kvDelete kv key).find? (fun p => p.1 == key) = none := by
    rw [List.find?_eq_none]
    intro p hp
    have := List.of_mem_filter hp
    simpa using this
  simp [kvGet, h]

theorem kvGet_kvPut_self (kv : List (String × VecEntry)) (key : String) (e : VecEntry) :
    kvGet (kvPut kv key e) key = some e := by
  have h1 : (kvDelete kv key).find? (fun p => p.1 == key) = none := by
    rw [List.find?_eq_none]
    intro p hp
    have := List.of_mem_filter hp
    simpa using this
  have h2 : ((kvDelete kv key) ++ [(key, e)]).find? (fun p => p.1 == key)
      = some (key, e) := by
    rw [find?_append_right _ _ _ h1]
    simp
  simp [kvGet, kvPut, h2]

end VectorNodeHandler

/-! ### C1 — WAL appends -/

open WALManager VectorNodeHandler in
/-- C1.  The claim states that each `write_log` preserves every entry
appended earlier to the active segment.  The code instead opens a fresh
`<active>.tmp` holding only the new entry and renames it over the active
segment (`wal_manager.py` lines 100–105), so the second append erases the
first: after `write_log(PUT k1); write_log(PUT k2)` the only segment contains
only the `k2` entry.  This theorem evaluates the model at that failing
input. -/
theorem wal_append_clobbers_previous :
    (write_log (write_log (walInit "n1" 1000) .put "k1" (some [1]) (some []) none 1001)
        .put "k2" (some [1]) (some []) none 1002).files
      = [⟨1000, [some ⟨.put, "k2", some [1], some [], 1002, "n1"⟩]⟩]
    ∧ (write_log (walInit "n1" 1000) .put "k1" (some [1]) (some []) none 1001).files
      = [⟨1000, [some ⟨.put, "k1", some [1], some [], 1001, "n1"⟩]⟩] := by
  decide

/-! ### C5 — search with top_k exceeding the live count -/

open VectorNodeHandler in
/-- C5.  The claim states that SEARCH with `top_k > live_count ≥ 1` returns
exactly `live_count` results.  The code clamps `k = min(top_k, count)` but
then requests `k * 2` candidates from `knn_query` (`handler.py` line 364);
hnswlib raises `RuntimeError` whenever the requested `k` exceeds the stored
element count, so with one live record and `top_k = 2` the node returns the
failure `Response` of line 369 instead of the one result.  This theorem
evaluates the model at that failing input. -/
theorem search_topk_over_live_fails :
    c5st.kv.length = 1 ∧ c5st.deleted_ids.card = 0
    ∧ search c5st [1, 0, 0, 0] 2 = .indexFailure := by
  decide

/-! ### C6 — dimension mismatch leaves the state untouched -/

open VectorNodeHandler in
/-- C6.  PUT with a vector whose length differs from the configured dimension
fails with the dimension-mismatch `Response` (`handler.py` lines 228–232)
and leaves the HNSW index, the KV store, the tombstone set, `next_hnsw_id`
and the WAL unchanged. -/
theorem put_dim_mismatch_unchanged (st : NodeState) (key : String) (vector : List ℚ)
    (metadata : List (String × String)) (replay_mode addFail1 addFail2 : Bool) (now : ℕ)
    (h : vector.length ≠ st.vector_dim) :
    (put st key vector metadata replay_mode addFail1 addFail2 now).2 = .invalidDim
    ∧ (put st key vector metadata replay_mode addFail1 addFail2 now).1.hnsw_index
        = st.hnsw_index
    ∧ (put st key vector metadata replay_mode addFail1 addFail2 now).1.kv = st.kv
    ∧ (put st key vector metadata replay_mode addFail1 addFail2 now).1.deleted_ids
        = st.deleted_ids
    ∧ (put st key vector metadata replay_mode addFail1 addFail2 now).1.next_hnsw_id
        = st.next_hnsw_id
    ∧ (put st key vector metadata replay_mode addFail1 addFail2 now).1.wal = st.wal := by
  simp [put, h]

open VectorNodeHandler in
/-- Witness for C6 at a concrete input: an empty vector against dimension 4. -/
theorem put_dim_mismatch_unchanged_witness :
    ([] : List ℚ).length ≠ (initState 4 "n1" 0).vector_dim
    ∧ (put (initState 4 "n1" 0) "a" [] [] false false false 1).2 = .invalidDim
    ∧ (put (initState 4 "n1" 0) "a" [] [] false false false 1).1.kv
        = (initState 4 "n1" 0).kv :=
  ⟨by decide,
   (put_dim_mismatch_unchanged (initState 4 "n1" 0) "a" [] [] false false false 1
      (by decide)).1,
   (put_dim_mismatch_unchanged (initState 4 "n1" 0) "a" [] [] false false false 1
      (by decide)).2.2.1⟩

/-! ### C4 — behaviour of the add-failure path of PUT -/

namespace VectorNodeHandler

theorem rebuild_kv (st : NodeState) : (_rebuild_hnsw_index st).kv = st.kv := rfl

theorem rebuild_next (st : NodeState) :
    (_rebuild_hnsw_index st).next_hnsw_id = st.next_hnsw_id := rfl

theorem rebuild_wal (st : NodeState) : (_rebuild_hnsw_index st).wal = st.wal := rfl

theorem rebuild_assigned (st : NodeState) :
    (_rebuild_hnsw_index st).assignedIds = st.assignedIds := rfl

theorem rebuild_deleted (st : NodeState) : (_rebuild_hnsw_index st).deleted_ids = ∅ := rfl

theorem healthCheck_kv (st : NodeState) : (healthCheck st).kv = st.kv := by
  unfold healthCheck; split <;> rfl

theorem healthCheck_next (st : NodeState) :
    (healthCheck st).next_hnsw_id = st.next_hnsw_id := by
  unfold healthCheck; split <;> rfl

theorem healthCheck_wal (st : NodeState) : (healthCheck st).wal = st.wal := by
  unfold healthCheck; split <;> rfl

theorem overwriteOld_next (st : NodeState) (key : String) :
    (overwriteOld st key).next_hnsw_id = st.next_hnsw_id := by
  unfold overwriteOld; cases _get_hnsw_id_by_key st.kv key <;> rfl

theorem overwriteOld_wal (st : NodeState) (key : String) :
    (overwriteOld st key).wal = st.wal := by
  unfold overwriteOld; cases _get_hnsw_id_by_key st.kv key <;> rfl

theorem kvGet_overwriteOld_self (st : NodeState) (key : String) :
    kvGet (overwriteOld st key).kv key = none := by
  unfold overwriteOld
  cases h : _get_hnsw_id_by_key st.kv key with
  | none =>
    have : kvGet st.kv key = none := by
      unfold _get_hnsw_id_by_key at h
      cases hg : kvGet st.kv key <;> simp [hg] at h ⊢
    simpa using this
  | some old => simpa using kvGet_kvDelete_self st.kv key

theorem finishPut_snd (st : NodeState) (key : String) (v : List ℚ)
    (m : List (String × String)) (nid : ℕ) (r : Bool) (now : ℕ) :
    (finishPut st key v m nid r now).2 = .ok := by
  unfold finishPut
  split
  · rfl
  · dsimp only

theorem finishPut_next (st : NodeState) (key : String) (v : List ℚ)
    (m : List (String × String)) (nid : ℕ) (r : Bool) (now : ℕ) :
    (finishPut st key v m nid r now).1.next_hnsw_id = st.next_hnsw_id + 1 := by
  unfold finishPut
  split
  · rfl
  · dsimp only
    split <;> rfl

theorem finishPut_kvGet_self (st : NodeState) (key : String) (v : List ℚ)
    (m : List (String × String)) (nid : ℕ) (r : Bool) (now : ℕ) :
    kvGet (finishPut st key v m nid r now).1.kv key = some ⟨nid, v, m⟩ := by
  unfold finishPut
  split
  · exact kvGet_kvPut_self st.kv key ⟨nid, v, m⟩
  · dsimp only
    split
    · exact kvGet_kvPut_self st.kv key ⟨nid, v, m⟩
    · exact kvGet_kvPut_self st.kv key ⟨nid, v, m⟩

end VectorNodeHandler

open VectorNodeHandler in
/-- C4 (amended).  When the first HNSW insert fails, `put` rebuilds and
re-reads `new_hnsw_id` from `next_hnsw_id`, which the rebuild leaves
unchanged (it is NOT set to the post-rebuild element count), and retries the
insert exactly once.  If the retry also fails the error propagates without
advancing `next_hnsw_id`, without writing the KV entry and without appending
to the WAL; if the retry succeeds the record is stored under the original
`next_hnsw_id`, which is then advanced by one. -/
theorem put_retry_behavior (st : NodeState) (key : String) (vector : List ℚ)
    (metadata : List (String × String)) (replay : Bool) (now : ℕ)
    (hdim : vector.length = st.vector_dim) :
    (put st key vector metadata replay true true now).2 = .indexErr
    ∧ (put st key vector metadata replay true true now).1.next_hnsw_id = st.next_hnsw_id
    ∧ kvGet (put st key vector metadata replay true true now).1.kv key = none
    ∧ (put st key vector metadata replay true true now).1.wal = st.wal
    ∧ (put st key vector metadata replay true false now).2 = .ok
    ∧ kvGet (put st key vector metadata replay true false now).1.kv key
        = some ⟨st.next_hnsw_id, vector, metadata⟩
    ∧ (put st key vector metadata replay true false now).1.next_hnsw_id
        = st.next_hnsw_id + 1 := by
  have hd : ¬ (vector.length ≠ st.vector_dim) := by simp [hdim]
  have habort : put st key vector metadata replay true true now
      = (_rebuild_hnsw_index (overwriteOld (healthCheck st) key), .indexErr) := by
    simp [put, hd]
  have hretry : put st key vector metadata replay true false now
      = finishPut (_rebuild_hnsw_index (overwriteOld (healthCheck st) key)) key vector
          metadata (overwriteOld (healthCheck st) key).next_hnsw_id replay now := by
    simp [put, hd, rebuild_next]
  have hnext : (overwriteOld (healthCheck st) key).next_hnsw_id = st.next_hnsw_id := by
    rw [overwriteOld_next, healthCheck_next]
  refine ⟨by rw [habort], ?_, ?_, ?_, ?_, ?_, ?_⟩
  · rw [habort]
    simpa [rebuild_next] using hnext
  · rw [habort]
    show kvGet (_rebuild_hnsw_index (overwriteOld (healthCheck st) key)).kv key = none
    rw [rebuild_kv]
    exact kvGet_overwriteOld_self (healthCheck st) key
  · rw [habort]
    show (_rebuild_hnsw_index (overwriteOld (healthCheck st) key)).wal = st.wal
    rw [rebuild_wal, overwriteOld_wal, healthCheck_wal]
  · rw [hretry]
    exact finishPut_snd _ _ _ _ _ _ _
  · rw [hretry, hnext]
    exact finishPut_kvGet_self _ _ _ _ _ _ _
  · rw [hretry]
    rw [finishPut_next, rebuild_next, hnext]

open VectorNodeHandler in
/-- Witness for C4 (amended) at a concrete input. -/
theorem put_retry_behavior_witness :
    ([1] : List ℚ).length = (initState 1 "n1" 0).vector_dim
    ∧ (put (initState 1 "n1" 0) "a" [1] [] false true true 1).2 = .indexErr
    ∧ (put (initState 1 "n1" 0) "a" [1] [] false true false 1).1.next_hnsw_id
        = (initState 1 "n1" 0).next_hnsw_id + 1 :=
  ⟨by decide,
   (put_retry_behavior (initState 1 "n1" 0) "a" [1] [] false 1 (by decide)).1,
   (put_retry_behavior (initState 1 "n1" 0) "a" [1] [] false 1
      (by decide)).2.2.2.2.2.2⟩

open VectorNodeHandler in
/-- Counterexample to C4 as stated.  The claim says that after the first
insert failure the handler "increments next_hnsw_id to the post-rebuild
count" before retrying, which here would store the new record under id 1
(the post-rebuild count).  The code instead re-reads the unchanged
`next_hnsw_id` (`handler.py` line 278), so the record is stored under id 2
and `next_hnsw_id` ends at 3. -/
theorem put_retry_id_cex :
    (_rebuild_hnsw_index (overwriteOld (healthCheck (runOps 1 c4prep)) "b")).hnsw_index.elems.length = 1
    ∧ (kvGet (put (runOps 1 c4prep) "b" [1] [] false true false 3).1.kv "b").map
        (fun e => e.hnsw_id) = some 2
    ∧ (put (runOps 1 c4prep) "b" [1] [] false true false 3).1.next_hnsw_id = 3
    ∧ ¬ ((kvGet (put (runOps 1 c4prep) "b" [1] [] false true false 3).1.kv "b").map
        (fun e => e.hnsw_id) = some 1) := by
  decide

/-! ### C3 — the id counter dominates the live set and the tombstones -/

namespace VectorNodeHandler

theorem kv_id_inj {st : NodeState} (h : Inv st) {p q : String × VecEntry}
    (hp : p ∈ st.kv) (hq : q ∈ st.kv) (hid : p.2.hnsw_id = q.2.hnsw_id) : p = q :=
  List.inj_on_of_nodup_map h.nodupIds hp hq hid

theorem kvDelete_sublist (kv : List (String × VecEntry)) (key : String) :
    List.Sublist (kvDelete kv key) kv :=
  List.filter_sublist kv

theorem mem_kvDelete {kv : List (String × VecEntry)} {key : String} {p : String × VecEntry} :
    p ∈ kvDelete kv key ↔ p ∈ kv ∧ ¬ (p.1 = key) := by
  simp [kvDelete, List.mem_filter]

theorem key_not_mem_kvDelete (kv : List (String × VecEntry)) (key : String) :
    key ∉ (kvDelete kv key).map Prod.fst := by
  intro hmem
  obtain ⟨p, hp, hkey⟩ := List.mem_map.1 hmem
  exact (mem_kvDelete.1 hp).2 hkey

theorem get_id_some {kv : List (String × VecEntry)} {key : String} {i : ℕ}
    (h : _get_hnsw_id_by_key kv key = some i) :
    ∃ p ∈ kv, p.1 = key ∧ p.2.hnsw_id = i := by
  unfold _get_hnsw_id_by_key kvGet at h
  cases hf : kv.find? (fun p => p.1 == key) with
  | none => rw [hf] at h; simp at h
  | some p =>
    rw [hf] at h
    simp only [Option.map_map, Option.map_some'] at h
    refine ⟨p, List.mem_of_find?_eq_some hf, ?_, by simpa using h⟩
    simpa using List.find?_some hf

theorem inv_rebuild (st : NodeState) (h : Inv st) : Inv (_rebuild_hnsw_index st) := by
  refine ⟨h.nodupKeys, h.nodupIds, h.kvLt, ?_, ?_, h.assignedLt⟩
  · intro p _
    simp [rebuild_deleted]
  · intro i hi
    rw [rebuild_deleted] at hi
    exact absurd hi (Finset.not_mem_empty i)

theorem inv_healthCheck (st : NodeState) (h : Inv st) : Inv (healthCheck st) := by
  unfold healthCheck
  split
  · exact inv_rebuild st h
  · exact h

theorem inv_tombstone (st : NodeState) (key : String) (i : ℕ) (h : Inv st)
    (hg : _get_hnsw_id_by_key st.kv key = some i) :
    Inv { st with deleted_ids := insert i st.deleted_ids, kv := kvDelete st.kv key } := by
  obtain ⟨p0, hp0mem, hp0key, hp0id⟩ := get_id_some hg
  refine ⟨?_, ?_, ?_, ?_, ?_, h.assignedLt⟩
  · exact h.nodupKeys.sublist ((kvDelete_sublist st.kv key).map Prod.fst)
  · exact h.nodupIds.sublist ((kvDelete_sublist st.kv key).map (fun p => p.2.hnsw_id))
  · intro p hp
    exact h.kvLt p (mem_kvDelete.1 hp).1
  · intro p hp
    obtain ⟨hpkv, hpkey⟩ := mem_kvDelete.1 hp
    rw [Finset.mem_insert]
    rintro (heq | hmem)
    · have : p = p0 := kv_id_inj h hpkv hp0mem (by rw [heq, hp0id])
      exact hpkey (by rw [this, hp0key])
    · exact h.kvNotDel p hpkv hmem
  · intro j hj
    rcases Finset.mem_insert.1 hj with hmem | hmem
    · rw [hmem, ← hp0id]
      exact h.kvLt p0 hp0mem
    · exact h.delLt j hmem

theorem inv_overwriteOld (st : NodeState) (key : String) (h : Inv st) :
    Inv (overwriteOld st key) := by
  unfold overwriteOld
  cases hg : _get_hnsw_id_by_key st.kv key with
  | none => exact h
  | some old => exact inv_tombstone st key old h hg

theorem inv_finishPut (st : NodeState) (key : String) (v : List ℚ)
    (m : List (String × String)) (r : Bool) (now : ℕ) (h : Inv st) :
    Inv (finishPut st key v m st.next_hnsw_id r now).1 := by
  have hDelKeys : ((kvDelete st.kv key).map Prod.fst).Nodup :=
    h.nodupKeys.sublist ((kvDelete_sublist st.kv key).map Prod.fst)
  have hDelIds : ((kvDelete st.kv key).map (fun p => p.2.hnsw_id)).Nodup :=
    h.nodupIds.sublist ((kvDelete_sublist st.kv key).map (fun p => p.2.hnsw_id))
  have hcore : Inv { st with
      hnsw_index := hnswAdd st.hnsw_index st.next_hnsw_id v
      next_hnsw_id := st.next_hnsw_id + 1
      assignedIds := st.assignedIds ++ [st.next_hnsw_id]
      kv := kvPut st.kv key ⟨st.next_hnsw_id, v, m⟩ } := by
    refine ⟨?_, ?_, ?_, ?_, ?_, ?_⟩
    · show ((kvPut st.kv key ⟨st.next_hnsw_id, v, m⟩).map Prod.fst).Nodup
      rw [kvPut, List.map_append]
      rw [List.nodup_append]
      refine ⟨hDelKeys, by simp, ?_⟩
      intro a ha hb
      simp only [List.map_cons, List.map_nil, List.mem_singleton] at hb
      rw [hb] at ha
      exact key_not_mem_kvDelete st.kv key ha
    · show ((kvPut st.kv key ⟨st.next_hnsw_id, v, m⟩).map
        (fun p => p.2.hnsw_id)).Nodup
      rw [kvPut, List.map_append]
      rw [List.nodup_append]
      refine ⟨hDelIds, by simp, ?_⟩
      intro a ha hb
      simp only [List.map_cons, List.map_nil, List.mem_singleton] at hb
      obtain ⟨p, hp, hpa⟩ := List.mem_map.1 ha
      have hlt : a < st.next_hnsw_id := by
        rw [← hpa]
        exact h.kvLt p (mem_kvDelete.1 hp).1
      rw [hb] at hlt
      exact absurd hlt (lt_irrefl _)
    · intro p hp
      rcases List.mem_append.1 hp with hmem | hmem
      · exact Nat.lt_succ_of_lt (h.kvLt p (mem_kvDelete.1 hmem).1)
      · simp only [List.mem_singleton] at hmem
        rw [hmem]
        exact Nat.lt_succ_self _
    · intro p hp
      rcases List.mem_append.1 hp with hmem | hmem
      · exact h.kvNotDel p (mem_kvDelete.1 hmem).1
      · simp only [List.mem_singleton] at hmem
        rw [hmem]
        intro hdel
        exact absurd (h.delLt _ hdel) (lt_irrefl _)
    · intro i hi
      exact Nat.lt_succ_of_lt (h.delLt i hi)
    · intro i hi
      rcases List.mem_append.1 hi with hmem | hmem
      · exact Nat.lt_succ_of_lt (h.assignedLt i hmem)
      · simp only [List.mem_singleton] at hmem
        rw [hmem]
        exact Nat.lt_succ_self _
  unfold finishPut
  split
  · exact hcore
  · dsimp only
    split
    · exact inv_rebuild _ ⟨hcore.nodupKeys, hcore.nodupIds, hcore.kvLt,
        hcore.kvNotDel, hcore.delLt, hcore.assignedLt⟩
    · exact ⟨hcore.nodupKeys, hcore.nodupIds, hcore.kvLt,
        hcore.kvNotDel, hcore.delLt, hcore.assignedLt⟩

theorem inv_put (st : NodeState) (key : String) (v : List ℚ)
    (m : List (String × String)) (r f1 f2 : Bool) (now : ℕ) (h : Inv st) :
    Inv (put st key v m r f1 f2 now).1 := by
  unfold put
  split
  · exact h
  · split
    · split
      · exact inv_rebuild _ (inv_overwriteOld _ key (inv_healthCheck _ h))
      · exact inv_finishPut _ key v m r now
          (inv_rebuild _ (inv_overwriteOld _ key (inv_healthCheck _ h)))
    · exact inv_finishPut _ key v m r now (inv_overwriteOld _ key (inv_healthCheck _ h))

theorem inv_delete (st : NodeState) (key : String) (r : Bool) (now : ℕ) (h : Inv st) :
    Inv (delete st key r now).1 := by
  unfold delete
  split
  · exact h
  next i heq =>
    have hts := inv_tombstone st key i h heq
    dsimp only
    split
    · exact hts
    · exact ⟨hts.nodupKeys, hts.nodupIds, hts.kvLt, hts.kvNotDel, hts.delLt,
        hts.assignedLt⟩

end VectorNodeHandler

theorem inv_applyOp (st : NodeState) (op : NodeOp) (h : VectorNodeHandler.Inv st) :
    VectorNodeHandler.Inv (applyOp st op) := by
  cases op with
  | putOp key v m r f1 f2 t => exact VectorNodeHandler.inv_put st key v m r f1 f2 t h
  | deleteOp key r t => exact VectorNodeHandler.inv_delete st key r t h

theorem inv_foldl (ops : List NodeOp) :
    ∀ st : NodeState, VectorNodeHandler.Inv st →
      VectorNodeHandler.Inv (ops.foldl applyOp st) := by
  induction ops with
  | nil => intro st h; exact h
  | cons op rest ih =>
    intro st h
    exact ih (applyOp st op) (inv_applyOp st op h)

theorem inv_init (dim : ℕ) (node_id : String) (now : ℕ) :
    VectorNodeHandler.Inv (initState dim node_id now) := by
  constructor <;> simp [initState]

theorem inv_runOps (dim : ℕ) (ops : List NodeOp) :
    VectorNodeHandler.Inv (runOps dim ops) :=
  inv_foldl ops (initState dim "n1" 0) (inv_init dim "n1" 0)

theorem inv_count_bound (st : NodeState) (h : VectorNodeHandler.Inv st) :
    st.kv.length + st.deleted_ids.card ≤ st.next_hnsw_id := by
  have hcardS : (st.kv.map (fun p => p.2.hnsw_id)).toFinset.card = st.kv.length := by
    rw [List.toFinset_card_of_nodup h.nodupIds, List.length_map]
  have hdisj : Disjoint (st.kv.map (fun p => p.2.hnsw_id)).toFinset st.deleted_ids := by
    rw [Finset.disjoint_left]
    intro i hiS hiD
    rw [List.mem_toFinset] at hiS
    obtain ⟨p, hp, hpi⟩ := List.mem_map.1 hiS
    exact h.kvNotDel p hp (by rw [hpi]; exact hiD)
  have hsub : (st.kv.map (fun p => p.2.hnsw_id)).toFinset ∪ st.deleted_ids
      ⊆ Finset.range st.next_hnsw_id := by
    intro i hi
    rw [Finset.mem_range]
    rcases Finset.mem_union.1 hi with hmem | hmem
    · rw [List.mem_toFinset] at hmem
      obtain ⟨p, hp, hpi⟩ := List.mem_map.1 hmem
      rw [← hpi]
      exact h.kvLt p hp
    · exact h.delLt i hmem
  calc st.kv.length + st.deleted_ids.card
      = ((st.kv.map (fun p => p.2.hnsw_id)).toFinset ∪ st.deleted_ids).card := by
        rw [Finset.card_union_of_disjoint hdisj, hcardS]
    _ ≤ (Finset.range st.next_hnsw_id).card := Finset.card_le_card hsub
    _ = st.next_hnsw_id := Finset.card_range _

/-- C3 (amended).  After every sequence of PUT and DELETE operations from the
initial state, `next_hnsw_id` is at least the number of live records (KV
entries) plus the number of tombstoned ids, and is strictly greater than
every `hnsw_id` ever assigned to a record.  (The claim's
`count(HNSW) + |tombstones|` over-counts: a tombstoned id physically stays
in the HNSW graph until a rebuild, so it is counted by `count()` as well.) -/
theorem next_id_dominates (dim : ℕ) (ops : List NodeOp) :
    (runOps dim ops).kv.length + (runOps dim ops).deleted_ids.card
        ≤ (runOps dim ops).next_hnsw_id
    ∧ ∀ i ∈ (runOps dim ops).assignedIds, i < (runOps dim ops).next_hnsw_id :=
  ⟨inv_count_bound _ (inv_runOps dim ops), (inv_runOps dim ops).assignedLt⟩

/-- Counterexample to C3 as stated: after `PUT a; PUT a` the index physically
holds 2 elements (the tombstoned old id 0 and the live id 1), the tombstone
set holds 1 id, but `next_hnsw_id = 2 < 2 + 1`. -/
theorem next_id_count_cex :
    ¬ ((runOps 1 c3ops).hnsw_index.elems.length + (runOps 1 c3ops).deleted_ids.card
        ≤ (runOps 1 c3ops).next_hnsw_id) := by
  decide

/-- Witness for C3 (amended) at a concrete input. -/
theorem next_id_dominates_witness :
    (runOps 1 c3ops).kv.length + (runOps 1 c3ops).deleted_ids.card
        ≤ (runOps 1 c3ops).next_hnsw_id
    ∧ 0 < (runOps 1 c3ops).next_hnsw_id :=
  ⟨(next_id_dominates 1 c3ops).1, (next_id_dominates 1 c3ops).2 0 (by decide)⟩

/-! ### C8 — round-robin shard placement -/

/-- C8 (amended).  `assign_shards_to_nodes` assigns shard `s` the master
`nodes[s % N]` and as slaves `nodes[(s+1) % N], …, nodes[(s+R) % N]` — the
slave list has length exactly `replica_count`, not at most
`replica_count - 1`. -/
theorem assign_round_robin (nodes : List String) (S R s : ℕ)
    (hne : nodes ≠ []) (hs : s < S) :
    (assign_shards_to_nodes nodes S R).getD s (0, "", [])
      = (s, nodes.getD (s % nodes.length) "",
          (List.range R).map (fun i => nodes.getD ((s + (i + 1)) % nodes.length) ""))
    ∧ ((assign_shards_to_nodes nodes S R).getD s (0, "", [])).2.2.length = R := by
  have hemp : nodes.isEmpty = false := by
    cases nodes with
    | nil => exact absurd rfl hne
    | cons x xs => rfl
  have hmain : (assign_shards_to_nodes nodes S R).getD s (0, "", [])
      = (s, nodes.getD (s % nodes.length) "",
          (List.range R).map (fun i => nodes.getD ((s + (i + 1)) % nodes.length) "")) := by
    unfold assign_shards_to_nodes
    rw [hemp]
    simp [List.getD, List.getElem?_map, List.getElem?_range hs]
  exact ⟨hmain, by rw [hmain]; simp⟩

/-- Witness for C8 (amended): three nodes, four shards, `replica_count = 2`,
shard 0 gets master "a" and slaves ["b", "c"]. -/
theorem assign_round_robin_witness :
    (["a", "b", "c"] : List String) ≠ [] ∧ (0 : ℕ) < 4
    ∧ (assign_shards_to_nodes ["a", "b", "c"] 4 2).getD 0 (0, "", [])
      = (0, (["a", "b", "c"] : List String).getD (0 % 3) "",
          (List.range 2).map (fun i =>
            (["a", "b", "c"] : List String).getD ((0 + (i + 1)) % 3) "")) :=
  ⟨by decide, by decide,
   (assign_round_robin ["a", "b", "c"] 4 2 0 (by decide) (by decide)).1⟩

/-- Counterexample to C8 as stated: with three nodes and `replica_count = 2`
every shard's slave list has length 2, exceeding the claimed bound
`replica_count - 1 = 1`. -/
theorem assign_slaves_len_cex :
    (assign_shards_to_nodes ["a", "b", "c"] 1 2).map (fun m => m.2.2.length) = [2]
    ∧ ¬ ((2 : ℕ) ≤ 2 - 1) := by
  decide

/-! ### C2 — full WAL replay: order, corrupt-line tolerance, collapse rule -/

namespace WALManager

theorem upsertOp_find_self (acc : List WalEntry) (e : WalEntry) :
    (upsertOp acc e).find? (fun x => x.key == e.key) = some e := by
  induction acc with
  | nil =>
    unfold upsertOp
    simp [List.find?_cons]
  | cons x xs ih =>
    unfold upsertOp
    by_cases hx : (x.key == e.key) = true
    · rw [if_pos hx]
      simp [List.find?_cons]
    · have hx' : (x.key == e.key) = false := by simpa using hx
      rw [if_neg hx]
      simp only [List.find?_cons, hx', cond_false]
      exact ih

theorem upsertOp_find_other (acc : List WalEntry) (e : WalEntry) (k : String)
    (hk : ¬ (e.key = k)) :
    (upsertOp acc e).find? (fun x => x.key == k) = acc.find? (fun x => x.key == k) := by
  have hek : (e.key == k) = false := by simpa using hk
  induction acc with
  | nil =>
    unfold upsertOp
    simp only [List.find?_cons, hek, cond_false]
  | cons x xs ih =>
    unfold upsertOp
    by_cases hx : (x.key == e.key) = true
    · have hxe : x.key = e.key := by simpa using hx
      have hxk : (x.key == k) = false := by simpa [hxe] using hk
      rw [if_pos hx]
      simp only [List.find?_cons, hek, hxk, cond_false]
    · rw [if_neg hx]
      simp only [List.find?_cons]
      cases hxk : (x.key == k) with
      | true => simp [cond_true]
      | false =>
        simp only [cond_false]
        exact ih

theorem upsertOp_key_mem (acc : List WalEntry) (e : WalEntry) (k : String) :
    k ∈ (upsertOp acc e).map (fun x => x.key)
      ↔ k ∈ acc.map (fun x => x.key) ∨ k = e.key := by
  induction acc with
  | nil => simp [upsertOp]
  | cons x xs ih =>
    unfold upsertOp
    by_cases hx : (x.key == e.key) = true
    · have hxe : x.key = e.key := by simpa using hx
      rw [if_pos hx]
      simp only [List.map_cons, List.mem_cons, hxe]
      tauto
    · rw [if_neg hx]
      simp only [List.map_cons, List.mem_cons, ih]
      tauto

theorem upsertOp_keys_nodup (acc : List WalEntry) (e : WalEntry)
    (h : (acc.map (fun x => x.key)).Nodup) :
    ((upsertOp acc e).map (fun x => x.key)).Nodup := by
  induction acc with
  | nil => simp [upsertOp]
  | cons x xs ih =>
    rw [List.map_cons, List.nodup_cons] at h
    unfold upsertOp
    by_cases hx : (x.key == e.key) = true
    · have hxe : x.key = e.key := by simpa using hx
      rw [if_pos hx, List.map_cons, List.nodup_cons]
      exact ⟨by rw [← hxe]; exact h.1, h.2⟩
    · rw [if_neg hx, List.map_cons, List.nodup_cons]
      refine ⟨?_, ih h.2⟩
      intro hmem
      rcases (upsertOp_key_mem xs e x.key).1 hmem with hmem2 | hmem2
      · exact h.1 hmem2
      · exact (by simpa using hx : ¬ x.key = e.key) hmem2

theorem collapseOps_append (l : List WalEntry) (e : WalEntry) :
    collapseOps (l ++ [e]) = upsertOp (collapseOps l) e := by
  simp [collapseOps, List.foldl_append]

theorem collapseOps_keys_nodup (l : List WalEntry) :
    ((collapseOps l).map (fun e => e.key)).Nodup := by
  induction l using List.reverseRecOn with
  | nil => simp [collapseOps]
  | append_singleton l e ih =>
    rw [collapseOps_append]
    exact upsertOp_keys_nodup _ _ ih

theorem collapseOps_find (l : List WalEntry) (k : String) :
    (collapseOps l).find? (fun e => e.key == k)
      = (l.filter (fun e => e.key == k)).getLast? := by
  induction l using List.reverseRecOn with
  | nil => simp [collapseOps]
  | append_singleton l e ih =>
    rw [collapseOps_append, List.filter_append]
    by_cases hk : e.key = k
    · have he : (e.key == k) = true := by simp [hk]
      rw [show List.filter (fun e => e.key == k) [e] = [e] by simp [List.filter, he]]
      rw [List.getLast?_concat, ← hk]
      exact upsertOp_find_self _ e
    · have he : (e.key == k) = false := by simpa using hk
      rw [upsertOp_find_other _ e k hk, ih]
      rw [show List.filter (fun e => e.key == k) [e] = [] by simp [List.filter, he]]
      rw [List.append_nil]

theorem flatten_filter_isSome (L : List WalSegment) :
    (((L.map (fun s => s.lines.filter (fun o => o.isSome))).flatten).filterMap id
        : List WalEntry)
      = ((L.map (fun s => s.lines)).flatten).filterMap id := by
  induction L with
  | nil => rfl
  | cons s rest ih =>
    simp only [List.map_cons, List.flatten_cons, List.filterMap_append]
    rw [filter_isSome_filterMap, ih]

theorem segmentEntries_strip (files : List WalSegment) :
    segmentEntries (stripCorrupt files) = segmentEntries files := by
  unfold segmentEntries stripCorrupt
  rw [sortByKey_map (fun s => s.ts) (fun s => s.ts)
    (fun s => (⟨s.ts, s.lines.filter (fun o => o.isSome)⟩ : WalSegment))
    (fun x => rfl) files]
  rw [List.map_map]
  exact flatten_filter_isSome (sortByKey (fun s => s.ts) files)

end WALManager

/-- C2 (amended).  A full `WALManager.replay` reads the segments in file-name
(timestamp) order, skips lines that are not valid JSON while recovering every
other entry (removing the corrupt lines does not change the result), and
collapses the surviving entries by key keeping, for each key, the LAST entry
in file read order — the entry timestamps are not consulted for the
collapse.  Each surviving operation is then applied exactly once via the
handler in replay mode. -/
theorem replay_collapse_characterization (files : List WalSegment) :
    WALManager.replayOps (WALManager.stripCorrupt files) = WALManager.replayOps files
    ∧ ((WALManager.replayOps files).map (fun e => e.key)).Nodup
    ∧ (∀ k : String,
        (WALManager.replayOps files).find? (fun e => e.key == k)
          = ((WALManager.segmentEntries files).filter (fun e => e.key == k)).getLast?)
    ∧ ∀ st : NodeState,
        walReplay st files = (WALManager.replayOps files).foldl applyWalEntry st := by
  refine ⟨?_, WALManager.collapseOps_keys_nodup _,
    fun k => WALManager.collapseOps_find _ k, fun st => rfl⟩
  unfold WALManager.replayOps
  rw [WALManager.segmentEntries_strip]

/-- Counterexample to C2 as stated.  The claim says the collapse keeps the
latest entry per key "by timestamp first, file order second"; the code
(`wal_manager.py` line 149, `unique_ops[key] = log_entry`) keeps the last
entry in file order regardless of timestamp.  Here the surviving entry for
"a" is the one with timestamp 5, while the claim requires the one with
timestamp 10. -/
theorem replay_ts_collapse_cex :
    WALManager.replayOps c2ex = [⟨.put, "a", some [2], some [], 5, "n"⟩]
    ∧ WALManager.specLatestFor (WALManager.segmentEntries c2ex) "a"
        = some ⟨.put, "a", some [1], some [], 10, "n"⟩
    ∧ (⟨.put, "a", some [2], some [], 5, "n"⟩ : WalEntry)
        ≠ ⟨.put, "a", some [1], some [], 10, "n"⟩ := by
  decide

/-! ### C7 — tombstoned ids are invisible to SEARCH and GET -/

namespace VectorNodeHandler

theorem kvGet_of_reverse (kv : List (String × VecEntry)) (i : ℕ) (key : String)
    (hnd : (kv.map Prod.fst).Nodup)
    (h : _get_key_by_hnsw_id kv i = some key) :
    ∃ e, kvGet kv key = some e ∧ e.hnsw_id = i := by
  unfold _get_key_by_hnsw_id at h
  cases hf : kv.find? (fun p => p.2.hnsw_id == i) with
  | none => rw [hf] at h; simp at h
  | some p =>
    rw [hf] at h
    simp only [Option.map_some'] at h
    replace h : p.1 = key := by simpa using h
    have hpmem := List.mem_of_find?_eq_some hf
    have hpid : p.2.hnsw_id = i := by simpa using List.find?_some hf
    cases hg : kv.find? (fun r => r.1 == key) with
    | none =>
      rw [List.find?_eq_none] at hg
      exact absurd (show (p.1 == key) = true by simp [h]) (hg p hpmem)
    | some r =>
      have hqmem := List.mem_of_find?_eq_some hg
      have hqkey : r.1 = key := by simpa using List.find?_some hg
      have hqp : r = p := List.inj_on_of_nodup_map hnd hqmem hpmem (by rw [hqkey, h])
      refine ⟨r.2, by simp [kvGet, hg], by rw [hqp]; exact hpid⟩

theorem searchLoop_not_deleted (st : NodeState) (tk : ℕ)
    (hnd : (st.kv.map Prod.fst).Nodup) :
    ∀ (cands : List (ℕ × ℚ)) (acc : List SearchHit),
      (∀ h ∈ acc, h.hnsw_id ∉ st.deleted_ids) →
      ∀ h ∈ searchLoop st tk cands acc, h.hnsw_id ∉ st.deleted_ids := by
  intro cands
  induction cands with
  | nil =>
    intro acc hacc h hmem
    rw [searchLoop] at hmem
    exact hacc h hmem
  | cons c rest ih =>
    intro acc hacc h hmem
    obtain ⟨i, score⟩ := c
    rw [searchLoop] at hmem
    by_cases hdel : i ∈ st.deleted_ids
    · rw [if_pos hdel] at hmem
      exact ih acc hacc h hmem
    · rw [if_neg hdel] at hmem
      cases hrk : _get_key_by_hnsw_id st.kv i with
      | none =>
        rw [hrk] at hmem
        exact ih acc hacc h hmem
      | some key =>
        rw [hrk] at hmem
        dsimp only at hmem
        obtain ⟨e0, he0, he0id⟩ := kvGet_of_reverse st.kv i key hnd hrk
        rw [he0] at hmem
        dsimp only at hmem
        have hacc' : ∀ h' ∈ acc ++ [⟨key, e0.vector, e0.metadata, score, e0.hnsw_id⟩],
            h'.hnsw_id ∉ st.deleted_ids := by
          intro h' hh'
          rcases List.mem_append.1 hh' with hmem2 | hmem2
          · exact hacc h' hmem2
          · simp only [List.mem_singleton] at hmem2
            rw [hmem2]
            show e0.hnsw_id ∉ st.deleted_ids
            rw [he0id]
            exact hdel
        split at hmem
        · exact hacc' h hmem
        · exact ih _ hacc' h hmem

theorem searchHits_cases (st : NodeState) (q : List ℚ) (tk : ℤ) :
    searchHits st q tk = []
    ∨ ∃ cands, searchHits st q tk
        = searchLoop st (if 0 < tk then tk.toNat else 5) cands [] := by
  unfold searchHits search
  split
  next a heq =>
    dsimp only at heq
    split at heq
    · left
      injection heq with h
      exact h.symm
    · split at heq
      · exact absurd heq (by simp)
      · right
        injection heq with h
        exact ⟨_, h.symm⟩
  next heq => left; rfl

end VectorNodeHandler

open VectorNodeHandler in
/-- C7.  Tombstoned ids are never visible at the read interface: every hit a
SEARCH returns carries a KV record whose `hnsw_id` is outside the tombstone
set (`handler.py` line 378 skips tombstoned candidates), and GET returns
NotFound when the KV entry is missing or its stored id is tombstoned
(lines 413–421).  The hypothesis — KV keys are unique — holds on every
reachable state (it is part of `Inv`, maintained by `inv_runOps`). -/
theorem tombstones_invisible (st : NodeState) (q : List ℚ) (tk : ℤ) (key : String)
    (e : VecEntry) (hnd : (st.kv.map Prod.fst).Nodup) :
    ((searchHits st q tk).all (fun h => decide (h.hnsw_id ∉ st.deleted_ids))) = true
    ∧ (kvGet st.kv key = none → get st key = none)
    ∧ (kvGet st.kv key = some e → e.hnsw_id ∈ st.deleted_ids → get st key = none) := by
  refine ⟨?_, ?_, ?_⟩
  · rw [List.all_eq_true]
    intro h hmem
    rw [decide_eq_true_eq]
    rcases searchHits_cases st q tk with hc | ⟨cands, hc⟩
    · rw [hc] at hmem
      exact absurd hmem (List.not_mem_nil h)
    · rw [hc] at hmem
      exact searchLoop_not_deleted st _ hnd cands []
        (by intro h' hh'; exact absurd hh' (List.not_mem_nil h')) h hmem
  · intro hnone
    simp [VectorNodeHandler.get, hnone]
  · intro hsome hdel
    simp [VectorNodeHandler.get, hsome, hdel]

open VectorNodeHandler in
/-- Witness for C7 at a concrete state with a tombstoned id. -/
theorem tombstones_invisible_witness :
    (c7st.kv.map Prod.fst).Nodup
    ∧ ((searchHits c7st [0] 1).all (fun h => decide (h.hnsw_id ∉ c7st.deleted_ids))) = true
    ∧ get c7st "a" = none :=
  ⟨by decide,
   (tombstones_invisible c7st [0] 1 "a" ⟨0, [1], []⟩ (by decide)).1,
   (tombstones_invisible c7st [0] 1 "a" ⟨0, [1], []⟩ (by decide)).2.1 (by decide)⟩

/-! ### C9 — coordinator merge deduplicates by first occurrence -/

namespace CoordinatorHandler

theorem collectSub_key_mem (acc : List SubResult) (x : SubResult) (k : String) :
    k ∈ (collectSub acc x).map (fun h => h.key)
      ↔ k ∈ acc.map (fun h => h.key) ∨ k = x.key := by
  unfold collectSub
  by_cases hx : (acc.any (fun y => y.key == x.key)) = true
  · rw [if_pos hx]
    have hkey : x.key ∈ acc.map (fun h => h.key) := by
      obtain ⟨y, hy, hyk⟩ := List.any_eq_true.1 hx
      exact List.mem_map.2 ⟨y, hy, by simpa using hyk⟩
    constructor
    · exact Or.inl
    · rintro (hm | hm)
      · exact hm
      · rw [hm]; exact hkey
  · rw [if_neg hx]
    rw [List.map_append]
    simp [List.mem_append]

theorem collectSub_keys_nodup (acc : List SubResult) (x : SubResult)
    (h : (acc.map (fun y => y.key)).Nodup) :
    ((collectSub acc x).map (fun y => y.key)).Nodup := by
  unfold collectSub
  by_cases hx : (acc.any (fun y => y.key == x.key)) = true
  · rw [if_pos hx]; exact h
  · rw [if_neg hx]
    rw [List.map_append, List.nodup_append]
    refine ⟨h, by simp, ?_⟩
    intro a ha hb
    simp only [List.map_cons, List.map_nil, List.mem_singleton] at hb
    rw [hb] at ha
    obtain ⟨y, hy, hyk⟩ := List.mem_map.1 ha
    exact hx (List.any_eq_true.2 ⟨y, hy, by simp [hyk]⟩)

theorem collect_spec (l : List SubResult) :
    ((l.foldl collectSub []).map (fun h => h.key)).Nodup
    ∧ (∀ k, k ∈ (l.foldl collectSub []).map (fun h => h.key)
        ↔ k ∈ l.map (fun h => h.key))
    ∧ ∀ h ∈ l.foldl collectSub [], l.find? (fun x => x.key == h.key) = some h := by
  induction l using List.reverseRecOn with
  | nil => simp
  | append_singleton l x ih =>
    obtain ⟨ih1, ih2, ih3⟩ := ih
    have hfold : ((l ++ [x]).foldl collectSub []) = collectSub (l.foldl collectSub []) x := by
      rw [List.foldl_append]
      rfl
    refine ⟨?_, ?_, ?_⟩
    · rw [hfold]
      exact collectSub_keys_nodup _ _ ih1
    · intro k
      rw [hfold, collectSub_key_mem, ih2, List.map_append]
      simp [List.mem_append]
    · intro h hmem
      rw [hfold] at hmem
      unfold collectSub at hmem
      split at hmem
      next => exact find?_append_left _ _ _ _ (ih3 h hmem)
      next hx =>
        rcases List.mem_append.1 hmem with hmem2 | hmem2
        · exact find?_append_left _ _ _ _ (ih3 h hmem2)
        · simp only [List.mem_singleton] at hmem2
          subst hmem2
          have hnotin : h.key ∉ l.map (fun y => y.key) := by
            intro hmm
            rw [← ih2 h.key] at hmm
            obtain ⟨y, hy, hyk⟩ := List.mem_map.1 hmm
            exact hx (List.any_eq_true.2 ⟨y, hy, by simp [hyk]⟩)
          have hfind : l.find? (fun y => y.key == h.key) = none := by
            rw [List.find?_eq_none]
            intro y hy hcon
            exact hnotin (List.mem_map.2 ⟨y, hy, by simpa using hcon⟩)
          rw [find?_append_right _ _ _ hfind]
          simp [List.find?_cons]

end CoordinatorHandler

open CoordinatorHandler in
/-- C9.  When the coordinator merges broadcast sub-results and a key appears
in the results of more than one node, the merged output keeps the score and
vector of the FIRST occurrence in node iteration order and drops every later
occurrence — also when the later one has a strictly smaller (better) score:
the `seen_keys` filter of `coordinator/handler.py` lines 201–206 is
unconditional.  Every returned entry equals the first entry with its key in
the concatenated sub-results, and each key appears at most once. -/
theorem coordinator_merge_first_wins (subs : List (List SubResult)) (tk : ℕ) :
    ((coordinatorSearch subs tk).map (fun h => h.key)).Nodup
    ∧ ∀ h ∈ coordinatorSearch subs tk,
        subs.flatten.find? (fun x => x.key == h.key) = some h := by
  obtain ⟨h1, _h2, h3⟩ := collect_spec subs.flatten
  constructor
  · have hperm : List.Perm
        ((sortByKey (fun h => h.score) (mergeCollect subs)).map (fun h => h.key))
        ((mergeCollect subs).map (fun h => h.key)) :=
      (sortByKey_perm _ _).map _
    have hnodup :
        ((sortByKey (fun h => h.score) (mergeCollect subs)).map (fun h => h.key)).Nodup :=
      hperm.nodup_iff.2 h1
    unfold coordinatorSearch
    exact hnodup.sublist ((List.take_sublist _ _).map _)
  · intro h hmem
    unfold coordinatorSearch at hmem
    have hmem2 : h ∈ sortByKey (fun h => h.score) (mergeCollect subs) :=
      List.mem_of_mem_take hmem
    rw [mem_sortByKey] at hmem2
    exact h3 h hmem2

open CoordinatorHandler in
/-- Witness for C9: the merged result keeps the first node's score 5 and
discards the later, strictly better-scored occurrence. -/
theorem coordinator_merge_first_wins_witness :
    (⟨"a", 5, []⟩ : SubResult) ∈ coordinatorSearch c9subs 1
    ∧ c9subs.flatten.find? (fun x => x.key == (⟨"a", 5, []⟩ : SubResult).key)
        = some ⟨"a", 5, []⟩ :=
  ⟨by decide,
   (coordinator_merge_first_wins c9subs 1).2 ⟨"a", 5, []⟩ (by decide)⟩

/-! ### C10 — non-positive top_k defaults to 5 -/

open VectorNodeHandler in
/-- C10.  `search` replaces a non-positive requested `top_k` by 5
(`handler.py` line 346: `top_k = req.top_k if req.top_k > 0 else 5`), so a
request with `top_k ≤ 0` behaves exactly like one with `top_k = 5` — it is
neither rejected nor answered with an empty result. -/
theorem search_default_topk (st : NodeState) (q : List ℚ) (tk : ℤ) (h : tk ≤ 0) :
    search st q tk = search st q 5 := by
  have h1 : ¬ (0 < tk) := not_lt.2 h
  have h5 : ((5 : ℤ).toNat : ℕ) = 5 := rfl
  simp [search, h1, h5]

open VectorNodeHandler in
/-- Witness for C10 at the concrete input `top_k = 0`. -/
theorem search_default_topk_witness :
    (0 : ℤ) ≤ 0
    ∧ search (initState 1 "n1" 0) [] 0 = search (initState 1 "n1" 0) [] 5 :=
  ⟨le_refl 0, search_default_topk (initState 1 "n1" 0) [] 0 (by decide)⟩

end VDB
